import Mathlib

/-!
# Verification of the LCA orchestration core

A shallow embedding, in Lean 4, of the dependency-gated orchestration engine
and the external tool-process protocol of the LCA repository:

* `src/agents/coordinator.rs` — task decomposition (`parse_subtasks`,
  `infer_agent_type`) and the dependency-gated executor
  (`CoordinatorAgent::execute`);
* `src/agents/base.rs` — `AgentResult` and the capability registry;
* `src/permissions.rs` — the escalating permission gate;
* `src/mcp/protocol.rs`, `src/mcp/server.rs`, `src/mcp/client.rs` — the
  line-delimited tool-process protocol, tool discovery and the provider map.

Rust strings are modelled as Lean `String` values over their character lists
(every literal the theorems touch is ASCII, where byte indices and character
indices coincide).  Fallible Rust functions (`anyhow::Result`) are modelled
with `Except String`; a Rust index/slice panic is modelled as an explicit
`crash` outcome.  External collaborators — the text-completion service, the
child process's pipes, `serde_json` — are either passed in as explicit
oracles or modelled by executable Lean functions mirroring their documented
behaviour on the JSON subset the repository exchanges.
-/

/-! ## String helpers (Rust `str::contains`, `find`, `rfind`, slicing) -/

/-- Does `cs` start with `pat`? -/
def charsStartWith : List Char → List Char → Bool
  | [], _ => true
  | _ :: _, [] => false
  | p :: ps, c :: cs => p == c && charsStartWith ps cs

/-- Does `pat` occur contiguously inside `cs`?
Models Rust `str::contains` for ASCII data. -/
def charsContains (pat : List Char) : List Char → Bool
  | [] => pat.isEmpty
  | c :: cs => charsStartWith pat (c :: cs) || charsContains pat cs

/-- Rust `haystack.contains(needle)`. -/
def strContains (haystack needle : String) : Bool :=
  charsContains needle.data haystack.data

/-- Index of the first occurrence of `c`. -/
def charsIdxOf (c : Char) : List Char → Option Nat
  | [] => none
  | x :: xs => if x == c then some 0 else (charsIdxOf c xs).map (· + 1)

/-- Index of the last occurrence of `c`. -/
def charsLastIdxOf (c : Char) : List Char → Option Nat
  | [] => none
  | x :: xs =>
    match charsLastIdxOf c xs with
    | some i => some (i + 1)
    | none => if x == c then some 0 else none

/-- Rust `s.find(c)` (byte index of the first occurrence; the strings the
theorems evaluate are ASCII, so character index = byte index). -/
def strFind (s : String) (c : Char) : Option Nat :=
  charsIdxOf c s.data

/-- Rust `s.rfind(c)`. -/
def strRFind (s : String) (c : Char) : Option Nat :=
  charsLastIdxOf c s.data

/-- Rust `&s[start..stop]` (half-open). -/
def strSlice (s : String) (start stop : Nat) : String :=
  String.mk ((s.data.drop start).take (stop - start))

/-- Whitespace, both for JSON and for Rust's `str::trim` (the whitespace
the repository's inputs can contain). -/
def isWsChar (c : Char) : Bool :=
  c == ' ' || c == '\n' || c == '\t' || c == '\r'

/-- Rust `str::to_lowercase` (character-wise; the tasks and stdin lines
the code inspects are ASCII, where the two agree). -/
def strToLower (s : String) : String :=
  String.mk (s.data.map Char.toLower)

/-- Rust `str::trim`. -/
def strTrim (s : String) : String :=
  String.mk (((s.data.dropWhile isWsChar).reverse.dropWhile isWsChar).reverse)

/-! ## A JSON value model

`Json` stands for `serde_json::Value` restricted to the fragment the
repository actually exchanges (objects, arrays, strings, booleans, integer
numbers, null).  `Json.parse` models `serde_json::from_str` on that
fragment and `Json.render` models `serde_json::to_string`. -/

inductive Json where
  | null : Json
  | bool (b : Bool) : Json
  | num (n : Int) : Json
  | str (s : String) : Json
  | arr (elems : List Json) : Json
  | obj (fields : List (String × Json)) : Json

def skipWs (cs : List Char) : List Char :=
  cs.dropWhile isWsChar

/-- The natural number denoted by a digit run. -/
def digitsToNat (ds : List Char) : Nat :=
  ds.foldl (fun acc c => acc * 10 + (c.toNat - 48)) 0

/-- Body of a JSON string literal after the opening quote: returns the
decoded text and the remaining input after the closing quote. -/
def parseStrBody : Nat → List Char → Option (String × List Char)
  | 0, _ => none
  | _, [] => none
  | fuel + 1, c :: rest =>
    if c == '"' then some ("", rest)
    else if c == '\\' then
      match rest with
      | [] => none
      | e :: rest2 =>
        let ec := if e == 'n' then '\n' else if e == 't' then '\t'
                  else if e == 'r' then '\r' else e
        match parseStrBody fuel rest2 with
        | some (s, r) => some (String.mk (ec :: s.data), r)
        | none => none
    else
      match parseStrBody fuel rest with
      | some (s, r) => some (String.mk (c :: s.data), r)
      | none => none

mutual

/-- One JSON value from the front of the input (fuelled recursive descent). -/
def parseVal : Nat → List Char → Option (Json × List Char)
  | 0, _ => none
  | fuel + 1, cs =>
    match skipWs cs with
    | [] => none
    | c :: rest =>
      if c == '"' then
        (parseStrBody (fuel + 1) rest).map fun p => (Json.str p.1, p.2)
      else if c == 't' then
        if charsStartWith "rue".data rest then some (Json.bool true, rest.drop 3) else none
      else if c == 'f' then
        if charsStartWith "alse".data rest then some (Json.bool false, rest.drop 4) else none
      else if c == 'n' then
        if charsStartWith "ull".data rest then some (Json.null, rest.drop 3) else none
      else if c == '\x5b' then
        match skipWs rest with
        | ']' :: rest2 => some (Json.arr [], rest2)
        | cs2 => parseArrItems fuel cs2
      else if c == '\x7b' then
        match skipWs rest with
        | '\x7d' :: rest2 => some (Json.obj [], rest2)
        | cs2 => parseObjItems fuel cs2
      else if c == '-' then
        match rest.takeWhile Char.isDigit with
        | [] => none
        | ds => some (Json.num (-(digitsToNat ds : Int)), rest.dropWhile Char.isDigit)
      else if c.isDigit then
        some (Json.num (digitsToNat ((c :: rest).takeWhile Char.isDigit) : Int),
              (c :: rest).dropWhile Char.isDigit)
      else none

/-- The item list of a non-empty JSON array (after `[`). -/
def parseArrItems : Nat → List Char → Option (Json × List Char)
  | 0, _ => none
  | fuel + 1, cs =>
    match parseVal fuel cs with
    | none => none
    | some (v, rest) =>
      match skipWs rest with
      | ',' :: rest2 =>
        match parseArrItems fuel rest2 with
        | some (Json.arr vs, rest3) => some (Json.arr (v :: vs), rest3)
        | _ => none
      | ']' :: rest2 => some (Json.arr [v], rest2)
      | _ => none

/-- The field list of a non-empty JSON object (after `{`). -/
def parseObjItems : Nat → List Char → Option (Json × List Char)
  | 0, _ => none
  | fuel + 1, cs =>
    match skipWs cs with
    | '"' :: rest =>
      match parseStrBody (fuel + 1) rest with
      | none => none
      | some (key, rest1) =>
        match skipWs rest1 with
        | ':' :: rest2 =>
          match parseVal fuel rest2 with
          | none => none
          | some (v, rest3) =>
            match skipWs rest3 with
            | ',' :: rest4 =>
              match parseObjItems fuel rest4 with
              | some (Json.obj fs, rest5) => some (Json.obj ((key, v) :: fs), rest5)
              | _ => none
            | '\x7d' :: rest4 => some (Json.obj [(key, v)], rest4)
            | _ => none
        | _ => none
    | _ => none

end

/-- Models `serde_json::from_str::<Value>` on the modelled fragment: the whole
input must be one JSON value, possibly surrounded by whitespace. -/
def Json.parse (s : String) : Option Json :=
  match parseVal (2 * s.length + 2) s.data with
  | some (j, rest) => if (skipWs rest).isEmpty then some j else none
  | none => none

mutual

/-- Models `serde_json::to_string` on the modelled fragment (string escapes are
not re-encoded; no theorem renders a string containing `"` or `\`). -/
def Json.render : Json → String
  | Json.null => "null"
  | Json.bool true => "true"
  | Json.bool false => "false"
  | Json.num n => toString n
  | Json.str s => "\"" ++ s ++ "\""
  | Json.arr elems => "\x5b" ++ Json.renderItems elems ++ "]"
  | Json.obj fields => "\x7b" ++ Json.renderFields fields ++ "\x7d"

def Json.renderItems : List Json → String
  | [] => ""
  | [v] => Json.render v
  | v :: rest => Json.render v ++ "," ++ Json.renderItems rest

def Json.renderFields : List (String × Json) → String
  | [] => ""
  | [(k, v)] => "\"" ++ k ++ "\":" ++ Json.render v
  | (k, v) :: rest => "\"" ++ k ++ "\":" ++ Json.render v ++ "," ++ Json.renderFields rest

end

/-- First value bound to key `k` in a decoded JSON object's field list
(serde rejects duplicate keys; on the inputs we consider there are none). -/
def jsonLookup (fields : List (String × Json)) (k : String) : Option Json :=
  (fields.find? (fun p => p.1 == k)).map Prod.snd

/-! ## Agents data model (`src/agents/base.rs`) -/

/-- The `AgentResult` of `src/agents/base.rs`; the metadata `HashMap` is
modelled as an association list (every result the code builds here has
empty metadata). -/
structure AgentResult where
  success : Bool
  output : String
  metadata : List (String × String)
deriving DecidableEq, Repr

/-- Rust `AgentResult::failure` (base.rs lines 65-71). -/
def AgentResult.failure (output : String) : AgentResult :=
  { success := false, output := output, metadata := [] }

/-- The decomposed `SubTask` of `src/agents/coordinator.rs` (lines 230-235). -/
structure SubTask where
  description : String
  agent_type : String
  dependencies : List Nat
deriving DecidableEq, Repr

/-- An agent as the capability registry sees it: its `name()` and its
`can_handle` predicate (`Agent` trait, base.rs; `execute` is an effect and
is modelled separately, as an oracle, where a claim needs it). -/
structure AgentSpec where
  name : String
  can_handle : String → Bool

/-- Rust `AgentRegistry::register` (base.rs lines 129-131): `HashMap::insert`
keyed by `agent.name()`, overwriting any prior entry with that key.  The
map's *contents* are modelled as an association list with unique keys; the
hash map's iteration order is NOT part of the contents and is quantified
separately (see `find_capable`). -/
def registryRegister (m : List (String × AgentSpec)) (a : AgentSpec) :
    List (String × AgentSpec) :=
  if m.any (fun p => p.1 == a.name) then
    m.map (fun p => if p.1 == a.name then (a.name, a) else p)
  else
    m ++ [(a.name, a)]

/-- Rust `AgentRegistry::find_capable` (base.rs lines 137-143): iterates
`self.agents.values()` — a `std::collections::HashMap`, whose iteration
order is unspecified — and keeps the agents whose `can_handle(task)` is
true, in iteration order.  `valuesEnum` is the enumeration the hash map
happens to produce; a run of the real code corresponds to some
`valuesEnum` that is a permutation of the map's values. -/
def find_capable (valuesEnum : List AgentSpec) (task : String) : List AgentSpec :=
  valuesEnum.filter (fun a => a.can_handle task)

/-! ## Task decomposition (`src/agents/coordinator.rs` lines 78-125) -/

/-- Rust `CoordinatorAgent::infer_agent_type` (coordinator.rs lines 99-125). -/
def infer_agent_type (task : String) : String :=
  let task_lower := strToLower task
  if strContains task_lower "code" || strContains task_lower "implement"
      || strContains task_lower "write" then
    "code"
  else if strContains task_lower "run" || strContains task_lower "execute"
      || strContains task_lower "command" then
    "shell"
  else if strContains task_lower "read" || strContains task_lower "file"
      || strContains task_lower "search" then
    "file"
  else if strContains task_lower "mcp" || strContains task_lower "tool"
      || strContains task_lower "external" then
    "mcp"
  else
    "analysis"

/-- Result of `parse_subtasks`: either the parsed/fallback list, or `crash`
when the Rust slice `&response[start..=end]` panics (slice start strictly
greater than end + 1). -/
inductive ParseOut where
  | crash : ParseOut
  | ok (subtasks : List SubTask) : ParseOut
deriving DecidableEq, Repr

/-- Rust `CoordinatorAgent::parse_subtasks` (coordinator.rs lines 78-97),
parameterised by `fromStr`, the external
`serde_json::from_str::<Vec<SubTask>>` (`none` = `Err`).  Rust's
`&response[start..=end]` is `&response[start..end+1]` and panics when
`start > end + 1`; that panic is the `crash` outcome. -/
def parse_subtasks (fromStr : String → Option (List SubTask))
    (response fallback_task : String) : ParseOut :=
  match strFind response '\x5b', strRFind response ']' with
  | some start, some stop =>
    if start > stop + 1 then ParseOut.crash
    else
      let json_str := strSlice response start (stop + 1)
      match fromStr json_str with
      | some subtasks =>
        if subtasks.isEmpty then
          ParseOut.ok [{ description := fallback_task,
                         agent_type := infer_agent_type fallback_task,
                         dependencies := [] }]
        else ParseOut.ok subtasks
      | none =>
        ParseOut.ok [{ description := fallback_task,
                       agent_type := infer_agent_type fallback_task,
                       dependencies := [] }]
  | _, _ =>
    ParseOut.ok [{ description := fallback_task,
                   agent_type := infer_agent_type fallback_task,
                   dependencies := [] }]

/-- Result of `decompose_task`: `err` when the completion-service call
propagates an error, `crash` when `parse_subtasks` panics, otherwise the
subtask list. -/
inductive DecomposeOut where
  | crash : DecomposeOut
  | err (e : String) : DecomposeOut
  | ok (subtasks : List SubTask) : DecomposeOut
deriving DecidableEq, Repr

/-- Rust `CoordinatorAgent::decompose_task` (coordinator.rs lines 24-76) with
the opaque completion service replaced by its outcome `llmResponse`. -/
def decompose_task (fromStr : String → Option (List SubTask))
    (llmResponse : Except String String) (task : String) : DecomposeOut :=
  match llmResponse with
  | Except.error e => DecomposeOut.err e
  | Except.ok response =>
    match parse_subtasks fromStr response task with
    | ParseOut.crash => DecomposeOut.crash
    | ParseOut.ok subtasks =>
      if subtasks.isEmpty then
        DecomposeOut.ok [{ description := task,
                           agent_type := infer_agent_type task,
                           dependencies := [] }]
      else DecomposeOut.ok subtasks

/-! ## The dependency-gated executor
(`CoordinatorAgent::execute`, coordinator.rs lines 165-227) -/

/-- Outcome of the per-dependency checks for one subtask (the inner `for`
loop, coordinator.rs lines 181-193).  `oob` is a Rust index panic
(`results[*dep_idx]` out of bounds); `c9` proves it never happens. -/
inductive DepCheck where
  | oob : DepCheck
  | abort (r : AgentResult) : DepCheck
  | pass : DepCheck
deriving DecidableEq, Repr

/-- The inner dependency loop at subtask `idx` with accumulated `results`:
a forward reference (`dep_idx >= idx`) aborts with the structural failure,
a failed dependency aborts with the runtime failure naming it, otherwise
the scan continues. -/
def checkDeps (idx : Nat) (results : List AgentResult) : List Nat → DepCheck
  | [] => DepCheck.pass
  | d :: ds =>
    if idx ≤ d then
      DepCheck.abort (AgentResult.failure "Invalid dependency: forward reference")
    else
      match results[d]? with
      | none => DepCheck.oob
      | some r =>
        if r.success then checkDeps idx results ds
        else
          DepCheck.abort (AgentResult.failure
            ("Dependency " ++ toString d ++ " failed, skipping subtask " ++ toString idx))

/-- State in which the outer subtask loop ends: a Rust panic, an `Err`
propagated from `execute_subtask` by `?`, an early `return Ok(failure)`
from a dependency check (carrying the results accumulated so far), or
normal completion of the loop. -/
inductive LoopResult where
  | crash : LoopResult
  | err (e : String) : LoopResult
  | earlyReturn (r : AgentResult) (resultsSoFar : List AgentResult) : LoopResult
  | done (results : List AgentResult) (allSuccess : Bool) : LoopResult
deriving DecidableEq, Repr

/-- The outer subtask loop (coordinator.rs lines 180-207).  `run idx st`
is the oracle for `execute_subtask(st, ...)` at position `idx`: it bundles
the registry lookup (an absent handler is an `Except.error`, line 143) and
the handler's effectful execution. -/
def execLoop (run : Nat → SubTask → Except String AgentResult) :
    List SubTask → Nat → List AgentResult → Bool → LoopResult
  | [], _, results, allSuccess => LoopResult.done results allSuccess
  | st :: rest, idx, results, allSuccess =>
    match checkDeps idx results st.dependencies with
    | DepCheck.oob => LoopResult.crash
    | DepCheck.abort r => LoopResult.earlyReturn r results
    | DepCheck.pass =>
      match run idx st with
      | Except.error e => LoopResult.err e
      | Except.ok r => execLoop run rest (idx + 1) (results ++ [r]) (allSuccess && r.success)

/-- The aggregate summary lines (coordinator.rs lines 209-220):
`results.iter().enumerate().map(...)`, starting the count at `idx`. -/
def summaryLines (idx : Nat) : List AgentResult → List String
  | [] => []
  | r :: rest =>
    ("Subtask " ++ toString idx ++ ": " ++ (if r.success then "SUCCESS" else "FAILED"))
      :: summaryLines (idx + 1) rest

/-- The aggregate summary string: the enumerated lines joined with `"\n"`. -/
def summaryOutput (results : List AgentResult) : String :=
  String.intercalate "\n" (summaryLines 0 results)

/-- Overall outcome of `CoordinatorAgent::execute` on an already-decomposed
subtask list: a Rust panic, `Err(e)`, or `Ok(result)`. -/
inductive ExecOutcome where
  | crash : ExecOutcome
  | err (e : String) : ExecOutcome
  | ok (r : AgentResult) : ExecOutcome
deriving DecidableEq, Repr

/-- Is the outcome the Rust index panic? -/
def ExecOutcome.isCrash : ExecOutcome → Bool
  | ExecOutcome.crash => true
  | _ => false

/-- Rust `CoordinatorAgent::execute` (coordinator.rs lines 177-227) applied to
a decomposed subtask list: run the loop from index 0 with empty results
and `all_success = true`; an early return surfaces as `Ok` of its failure
result, loop completion aggregates `all_success` and the summary. -/
def coordinatorExecute (run : Nat → SubTask → Except String AgentResult)
    (subtasks : List SubTask) : ExecOutcome :=
  match execLoop run subtasks 0 [] true with
  | LoopResult.crash => ExecOutcome.crash
  | LoopResult.err e => ExecOutcome.err e
  | LoopResult.earlyReturn r _ => ExecOutcome.ok r
  | LoopResult.done results allSuccess =>
    ExecOutcome.ok { success := allSuccess, output := summaryOutput results, metadata := [] }

/-! ## The permission gate (`src/permissions.rs`) -/

/-- The `PermissionMode` of permissions.rs ( lines 4-10). -/
inductive PermissionMode where
  | Ask : PermissionMode
  | AllowAll : PermissionMode
deriving DecidableEq, Repr

/-- Is a stdin line one of the recognised choices of the interactive
prompt (permissions.rs lines 78-100 / 125-147)? -/
def recognizedChoice (line : String) : Bool :=
  let c := strToLower (strTrim line)
  c == "y" || c == "yes" || c == "n" || c == "no"
    || c == "a" || c == "all" || c == "q" || c == "quit"

/-- The interactive choice loop shared by `prompt_user_file_write` and
`prompt_user_shell_execution` (permissions.rs lines 69-101 and 116-148):
reads stdin lines until one is recognised.  `inputs` is the stream of
lines the user types; exhausting it models a `read_line` error (return
false).  Returns (decision, mode after the call, remaining input): the
`a`/`all` choice writes `AllowAll` through the shared mutex before
returning true. -/
def promptChoice (mode : PermissionMode) : List String → Bool × PermissionMode × List String
  | [] => (false, mode, [])
  | line :: rest =>
    let c := strToLower (strTrim line)
    if c == "y" || c == "yes" then (true, mode, rest)
    else if c == "n" || c == "no" then (false, mode, rest)
    else if c == "a" || c == "all" then (true, PermissionMode.AllowAll, rest)
    else if c == "q" || c == "quit" then (false, mode, rest)
    else promptChoice mode rest

/-- Rust `PermissionManager::request_file_write` (permissions.rs lines 25-32):
under `AllowAll` return true with no interaction (the input stream is
untouched); under `Ask` run the interactive prompt.  `path` and
`content_preview` only feed the printed banner. -/
def request_file_write (_path _content_preview : String) (mode : PermissionMode)
    (inputs : List String) : Bool × PermissionMode × List String :=
  match mode with
  | PermissionMode.AllowAll => (true, PermissionMode.AllowAll, inputs)
  | PermissionMode.Ask => promptChoice PermissionMode.Ask inputs

/-- Rust `PermissionManager::request_shell_execution` (permissions.rs lines
35-42). -/
def request_shell_execution (_command : String) (mode : PermissionMode)
    (inputs : List String) : Bool × PermissionMode × List String :=
  match mode with
  | PermissionMode.AllowAll => (true, PermissionMode.AllowAll, inputs)
  | PermissionMode.Ask => promptChoice PermissionMode.Ask inputs

/-! ## The tool process protocol (`src/mcp/protocol.rs`) -/

/-- The `ParameterSchema` of protocol.rs ( lines 13-21). -/
structure ParameterSchema where
  param_type : String
  description : Option String
  required : Option Bool
  default : Option Json

/-- The `Tool` of protocol.rs ( lines 4-11); the `parameters` map as an
association list, `#[serde(default)]` = empty when the field is absent. -/
structure Tool where
  name : String
  description : String
  parameters : List (String × ParameterSchema)

/-- The `McpRequest` of protocol.rs ( lines 23-50), internally tagged by
`method`. -/
inductive McpRequest where
  | listTools : McpRequest
  | callTool (name : String) (arguments : List (String × Json)) : McpRequest
  | listPrompts : McpRequest
  | getPrompt (name : String) (arguments : Option (List (String × String))) : McpRequest
  | listResources : McpRequest
  | readResource (uri : String) : McpRequest

/-- The `McpResponse` of protocol.rs ( lines 52-60). -/
structure McpResponse where
  success : Bool
  result : Option Json
  error : Option String

/-- Rust `McpResponse::error` (protocol.rs lines 72-78). -/
def McpResponse.mkError (message : String) : McpResponse :=
  { success := false, result := none, error := some message }

/-- Models `serde_json::to_string` of an `McpRequest`: the `method` tag first,
then the variant's fields in declaration order (serde's internally-tagged
encoding).  Only the variants the theorems exercise need their fields
rendered. -/
def McpRequest.toLine : McpRequest → String
  | McpRequest.listTools => Json.render (Json.obj [("method", Json.str "tools/list")])
  | McpRequest.callTool name arguments =>
    Json.render (Json.obj [("method", Json.str "tools/call"),
                           ("name", Json.str name),
                           ("arguments", Json.obj arguments)])
  | McpRequest.listPrompts => Json.render (Json.obj [("method", Json.str "prompts/list")])
  | McpRequest.getPrompt name _ =>
    Json.render (Json.obj [("method", Json.str "prompts/get"), ("name", Json.str name)])
  | McpRequest.listResources => Json.render (Json.obj [("method", Json.str "resources/list")])
  | McpRequest.readResource uri =>
    Json.render (Json.obj [("method", Json.str "resources/read"), ("uri", Json.str uri)])

/-- serde's decoding of an `Option<T>`-typed struct field: absent or
`null` is `None`; otherwise the value must satisfy `readT`. -/
def jsonOptField (fields : List (String × Json)) (k : String)
    (readT : Json → Option Json) : Option (Option Json) :=
  match jsonLookup fields k with
  | none => some none
  | some Json.null => some none
  | some v => (readT v).map some

/-- Models `serde_json::from_str::<McpResponse>` after generic JSON parsing:
`success` is a required bool, `result` an optional value, `error` an
optional string; unknown fields are ignored (no `deny_unknown_fields`). -/
def McpResponse.fromJson : Json → Option McpResponse
  | Json.obj fields =>
    match jsonLookup fields "success" with
    | some (Json.bool b) =>
      match jsonOptField fields "result" (fun v => some v) with
      | none => none
      | some r =>
        match jsonLookup fields "error" with
        | none => some { success := b, result := r, error := none }
        | some Json.null => some { success := b, result := r, error := none }
        | some (Json.str s) => some { success := b, result := r, error := some s }
        | some _ => none
    | _ => none
  | _ => none

/-- Models `serde_json::from_value::<ParameterSchema>`: `type` is a required
string (renamed field), the rest decode as options. -/
def ParameterSchema.fromJson : Json → Option ParameterSchema
  | Json.obj fields =>
    match jsonLookup fields "type" with
    | some (Json.str t) =>
      let desc := match jsonLookup fields "description" with
        | none => some none
        | some Json.null => some none
        | some (Json.str s) => some (some s)
        | some _ => none
      let req := match jsonLookup fields "required" with
        | none => some none
        | some Json.null => some none
        | some (Json.bool b) => some (some b)
        | some _ => none
      match desc, req with
      | some d, some r =>
        match jsonOptField fields "default" (fun v => some v) with
        | some dv => some { param_type := t, description := d, required := r, default := dv }
        | none => none
      | _, _ => none
    | _ => none
  | _ => none

/-- Decode the `parameters` field's object into the schema map. -/
def paramsFromJson : List (String × Json) → Option (List (String × ParameterSchema))
  | [] => some []
  | (k, v) :: rest =>
    match ParameterSchema.fromJson v, paramsFromJson rest with
    | some p, some ps => some ((k, p) :: ps)
    | _, _ => none

/-- Models `serde_json::from_value::<Tool>`: `name` and `description` are
required strings; `parameters` defaults to empty when absent. -/
def Tool.fromJson : Json → Option Tool
  | Json.obj fields =>
    match jsonLookup fields "name", jsonLookup fields "description" with
    | some (Json.str n), some (Json.str d) =>
      match jsonLookup fields "parameters" with
      | none => some { name := n, description := d, parameters := [] }
      | some (Json.obj ps) =>
        (paramsFromJson ps).map fun m => { name := n, description := d, parameters := m }
      | some _ => none
    | _, _ => none
  | _ => none

/-- Models `serde_json::from_value::<Vec<Tool>>` (server.rs line 71). -/
def toolsFromJson : Json → Option (List Tool)
  | Json.arr xs => xs.mapM Tool.fromJson
  | _ => none

/-! ## The tool process (`src/mcp/server.rs`) -/

/-- The state a `McpServer` owns (server.rs lines 21-26): its child
process handle (modelled by the child's pid) and the discovered tool
cache.  The config's name tags the instance. -/
structure McpServerSt where
  name : String
  process : Option Nat
  tools : List Tool

/-- Rust `McpServer::new(config)` (server.rs lines 30-36). -/
def newServer (name : String) : McpServerSt :=
  { name := name, process := none, tools := [] }

/-- Rust `McpServer::send_request` (server.rs lines 80-104), with the child's
pipes as the oracle `exchange`: one request line written and flushed, one
response line read back (`Except.error` = a pipe read/write failure).  A
response line that does not parse as JSON, or whose JSON does not decode
as `McpResponse`, is the `?` on `serde_json::from_str` (an `Err`).  With
no process, `Ok(McpResponse::error("MCP server not running"))`. -/
def send_request (exchange : String → Except String String) (s : McpServerSt)
    (req : McpRequest) : Except String McpResponse :=
  match s.process with
  | none => Except.ok (McpResponse.mkError "MCP server not running")
  | some _ =>
    match exchange (McpRequest.toLine req) with
    | Except.error e => Except.error e
    | Except.ok line =>
      match Json.parse line with
      | none => Except.error "invalid JSON in MCP response line"
      | some j =>
        match McpResponse.fromJson j with
        | none => Except.error "invalid JSON in MCP response line"
        | some resp => Except.ok resp

/-- Rust `{:?}` of an `Option<String>` (escapes do not arise in the
messages the theorems evaluate). -/
def optionDebug : Option String → String
  | none => "None"
  | some s => "Some(\"" ++ s ++ "\")"

/-- Rust `McpServer::call_tool` (server.rs lines 106-125): send `CallTool`;
on `success`, unwrap `result` (its absence is the error
"No result from tool call"); otherwise fail with the remote error's
debug rendering. -/
def call_tool (exchange : String → Except String String) (s : McpServerSt)
    (name : String) (arguments : List (String × Json)) : Except String Json :=
  match send_request exchange s (McpRequest.callTool name arguments) with
  | Except.error e => Except.error e
  | Except.ok resp =>
    if resp.success then
      match resp.result with
      | some v => Except.ok v
      | none => Except.error "No result from tool call"
    else
      Except.error ("Tool call failed: " ++ optionDebug resp.error)

/-- Rust `McpServer::discover_tools` (server.rs lines 65-78): send `ListTools`;
when the response succeeds and carries a result that decodes as a tool
list, cache it; every other decoded response is silently absorbed and the
function still returns `Ok(())`. -/
def discover_tools (exchange : String → Except String String) (s : McpServerSt) :
    Except String McpServerSt :=
  match send_request exchange s McpRequest.listTools with
  | Except.error e => Except.error e
  | Except.ok resp =>
    if resp.success then
      match resp.result with
      | some r =>
        match toolsFromJson r with
        | some tools => Except.ok { s with tools := tools }
        | none => Except.ok s
      | none => Except.ok s
    else Except.ok s

/-- Rust `McpServer::start` (server.rs lines 38-63): spawn the child with piped
stdio (`spawnPid` is the spawn's outcome: `Except.error` = spawn failure,
`Except.ok pid` = the child's pid), store the handle, then run the
discovery exchange; its error propagates through `?`. -/
def serverStart (spawnPid : Except String Nat) (exchange : String → Except String String)
    (s : McpServerSt) : Except String McpServerSt :=
  match spawnPid with
  | Except.error e => Except.error e
  | Except.ok pid => discover_tools exchange { s with process := some pid }

/-! ## The tool process manager (`src/mcp/client.rs`) -/

/-- Rust `impl Drop for McpServer` (server.rs lines 144-154): when an instance
is destroyed with a live process handle, a best-effort `kill pid` is
issued; the model removes the pid from the set of running children. -/
def dropServer (s : McpServerSt) (running : List Nat) : List Nat :=
  match s.process with
  | some pid => running.erase pid
  | none => running

/-- The `HashMap::insert` of the manager's provider map (client.rs line 31):
the new server is stored under `name`; the returned prior value, if any,
is an unused temporary, so it is dropped at once and `dropServer` fires
on it. -/
def mapInsertServer (servers : List (String × McpServerSt)) (name : String)
    (v : McpServerSt) (running : List Nat) : List (String × McpServerSt) × List Nat :=
  match servers.find? (fun p => p.1 == name) with
  | some old => (servers.map (fun p => if p.1 == name then (name, v) else p),
                 dropServer old.2 running)
  | none => (servers ++ [(name, v)], running)

/-- Rust `McpClient::register_server` (client.rs lines 23-34): construct a new
`McpServer`, `start()` it (spawning adds `pid` to the running children;
a start failure propagates), then insert it under the config's name.
Returns the updated provider map and the updated set of running child
processes. -/
def register_server (pid : Nat) (exchange : String → Except String String)
    (name : String) (servers : List (String × McpServerSt)) (running : List Nat) :
    Except String (List (String × McpServerSt) × List Nat) :=
  match serverStart (Except.ok pid) exchange (newServer name) with
  | Except.error e => Except.error e
  | Except.ok srv => Except.ok (mapInsertServer servers name srv (pid :: running))

/-! ## Concrete instances evaluated by the witnesses -/

/-- Subtask A of the end-to-end scenario: no dependencies. -/
def stA : SubTask := { description := "A", agent_type := "analysis", dependencies := [] }

/-- Subtask B: depends on subtask 0. -/
def stB : SubTask := { description := "B", agent_type := "analysis", dependencies := [0] }

/-- Subtask C: depends on subtasks 0 and 1. -/
def stC : SubTask := { description := "C", agent_type := "analysis", dependencies := [0, 1] }

/-- A subtask whose dependency list contains its own index (a self
reference, hence a forward reference at position 1). -/
def stSelf : SubTask := { description := "B", agent_type := "analysis", dependencies := [1] }

/-- Subtask A's (successful) handler result. -/
def resA : AgentResult := { success := true, output := "A done", metadata := [] }

/-- Subtask B's (failed) handler result. -/
def resB : AgentResult := { success := false, output := "B broke", metadata := [] }

/-- Same success flags as `resA`/`resB`, different output texts. -/
def resA2 : AgentResult := { success := true, output := "other text", metadata := [] }

def resB2 : AgentResult := { success := false, output := "different", metadata := [] }

/-- Handler oracle of the end-to-end scenario: subtask 0 succeeds,
subtask 1 fails, any later invocation is an error (so any theorem whose
conclusion is not that error proves the later handlers never ran). -/
def runW : Nat → SubTask → Except String AgentResult := fun idx _ =>
  if idx == 0 then Except.ok resA
  else if idx == 1 then Except.ok resB
  else Except.error "handler invoked past the halt point"

/-- A second oracle agreeing with `runW` on indices 0 and 1 but not later:
the executor theorems conclude the same outcome for both, which is what
"subtask C's handler is never invoked" means in the model. -/
def runW2 : Nat → SubTask → Except String AgentResult := fun idx _ =>
  if idx == 0 then Except.ok resA
  else if idx == 1 then Except.ok resB
  else Except.ok { success := true, output := "C ran", metadata := [] }

/-- An oracle agreeing with `runW` at index 0 only: used to show that a
forward-reference abort at position 1 never consults the handler there. -/
def runWFwd : Nat → SubTask → Except String AgentResult := fun idx _ =>
  if idx == 0 then Except.ok resA
  else Except.ok { success := true, output := "ran anyway", metadata := [] }

/-- Two agents that can both handle every task, distinguished by name. -/
def agA : AgentSpec := { name := "alpha", can_handle := fun _ => true }

def agB : AgentSpec := { name := "beta", can_handle := fun _ => true }

/-- The registry contents after `register(agA); register(agB)`. -/
def regAB : List (String × AgentSpec) := registryRegister (registryRegister [] agA) agB

/-- A provider that answers the encoded `CallTool{name:"x",arguments:{"a":1}}`
request line with `{"success":true,"result":{"ok":true}}`. -/
def exCallOk : String → Except String String := fun line =>
  if line == McpRequest.toLine (McpRequest.callTool "x" [("a", Json.num 1)]) then
    Except.ok "\x7b\"success\":true,\"result\":\x7b\"ok\":true\x7d\x7d"
  else Except.error "unexpected request"

/-- A provider that answers the same request with
`{"success":false,"error":"boom"}`. -/
def exCallBoom : String → Except String String := fun line =>
  if line == McpRequest.toLine (McpRequest.callTool "x" [("a", Json.num 1)]) then
    Except.ok "\x7b\"success\":false,\"error\":\"boom\"\x7d"
  else Except.error "unexpected request"

/-- A provider that answers with `{"success":true}` (no `result` field). -/
def exCallNoResult : String → Except String String := fun line =>
  if line == McpRequest.toLine (McpRequest.callTool "x" [("a", Json.num 1)]) then
    Except.ok "\x7b\"success\":true\x7d"
  else Except.error "unexpected request"

/-- A running tool process with an empty tool cache. -/
def srvX : McpServerSt := { name := "srv", process := some 7, tools := [] }

/-- A provider whose discovery answer reports `success:false`. -/
def exListFail : String → Except String String := fun _ =>
  Except.ok "\x7b\"success\":false,\"error\":\"no tools today\"\x7d"

/-- The provider registered first in the replacement scenario (pid 1). -/
def srvOld : McpServerSt := { name := "a", process := some 1, tools := [] }

/-- The provider state produced by re-registering "a" with child pid 2. -/
def srvNew2 : McpServerSt := { name := "a", process := some 2, tools := [] }

/-! ## Shared lemmas about the executor loop -/

/-- The executor consults the handler oracle only at positions below
`idx + xs.length`: two oracles agreeing there run identically.  This is
the formal sense of "a handler at or past the halt point is never
invoked". -/
theorem execLoop_congr (run run2 : Nat → SubTask → Except String AgentResult)
    (xs : List SubTask) (idx : Nat) (rs : List AgentResult) (b : Bool)
    (hagree : ∀ j st2, j < idx + xs.length → run2 j st2 = run j st2) :
    execLoop run2 xs idx rs b = execLoop run xs idx rs b := by
  induction xs generalizing idx rs b with
  | nil => rfl
  | cons st rest ih =>
    simp only [execLoop]
    cases hc : checkDeps idx rs st.dependencies with
    | oob => rfl
    | abort r => rfl
    | pass =>
      rw [hagree idx st (by simp only [List.length_cons]; omega)]
      cases run idx st with
      | error e => rfl
      | ok r =>
        exact ih (idx + 1) (rs ++ [r]) (b && r.success)
          (fun j st2 hj => hagree j st2 (by simp only [List.length_cons] at *; omega))

/-- A loop that completes a prefix continues into the suffix from the
prefix's final state. -/
theorem execLoop_append (run : Nat → SubTask → Except String AgentResult)
    (xs ys : List SubTask) (idx : Nat) (rs : List AgentResult) (b : Bool)
    (rs' : List AgentResult) (b' : Bool)
    (h : execLoop run xs idx rs b = LoopResult.done rs' b') :
    execLoop run (xs ++ ys) idx rs b = execLoop run ys (idx + xs.length) rs' b' := by
  induction xs generalizing idx rs b with
  | nil =>
    rw [show execLoop run [] idx rs b = LoopResult.done rs b from rfl] at h
    injection h with h1 h2
    subst h1; subst h2
    simp
  | cons st rest ih =>
    simp only [execLoop] at h
    simp only [List.cons_append, execLoop]
    cases hc : checkDeps idx rs st.dependencies with
    | oob => rw [hc] at h; exact absurd h (by simp)
    | abort r => rw [hc] at h; exact absurd h (by simp)
    | pass =>
      rw [hc] at h
      cases hr : run idx st with
      | error e => rw [hr] at h; exact absurd h (by simp)
      | ok r =>
        rw [hr] at h
        have h2 : execLoop run rest (idx + 1) (rs ++ [r]) (b && r.success)
            = LoopResult.done rs' b' := h
        have h3 := ih (idx + 1) (rs ++ [r]) (b && r.success) h2
        show execLoop run (rest ++ ys) (idx + 1) (rs ++ [r]) (b && r.success) = _
        rw [h3]
        congr 1
        simp only [List.length_cons]
        omega

/-- One result is appended per completed subtask: completing `xs` from a
state with `rs` accumulated leaves `rs.length + xs.length` results. -/
theorem execLoop_done_length (run : Nat → SubTask → Except String AgentResult)
    (xs : List SubTask) (idx : Nat) (rs : List AgentResult) (b : Bool)
    (rs' : List AgentResult) (b' : Bool)
    (h : execLoop run xs idx rs b = LoopResult.done rs' b') :
    rs'.length = rs.length + xs.length := by
  induction xs generalizing idx rs b with
  | nil =>
    rw [show execLoop run [] idx rs b = LoopResult.done rs b from rfl] at h
    injection h with h1 _
    subst h1; simp
  | cons st rest ih =>
    simp only [execLoop] at h
    cases hc : checkDeps idx rs st.dependencies with
    | oob => rw [hc] at h; exact absurd h (by simp)
    | abort r => rw [hc] at h; exact absurd h (by simp)
    | pass =>
      rw [hc] at h
      cases hr : run idx st with
      | error e => rw [hr] at h; exact absurd h (by simp)
      | ok r =>
        rw [hr] at h
        have hrec := ih (idx + 1) (rs ++ [r]) (b && r.success) h
        simp only [List.length_append, List.length_cons, List.length_nil] at hrec ⊢
        omega

/-- A completed loop extends the accumulator and ANDs the new results'
success flags onto the accumulated flag. -/
theorem execLoop_done_parts (run : Nat → SubTask → Except String AgentResult)
    (xs : List SubTask) (idx : Nat) (rs : List AgentResult) (b : Bool)
    (rs' : List AgentResult) (b' : Bool)
    (h : execLoop run xs idx rs b = LoopResult.done rs' b') :
    ∃ app, rs' = rs ++ app ∧ b' = (b && app.all (fun r => r.success)) := by
  induction xs generalizing idx rs b with
  | nil =>
    rw [show execLoop run [] idx rs b = LoopResult.done rs b from rfl] at h
    injection h with h1 h2
    subst h1; subst h2
    exact ⟨[], by simp, by simp⟩
  | cons st rest ih =>
    simp only [execLoop] at h
    cases hc : checkDeps idx rs st.dependencies with
    | oob => rw [hc] at h; exact absurd h (by simp)
    | abort r => rw [hc] at h; exact absurd h (by simp)
    | pass =>
      rw [hc] at h
      cases hr : run idx st with
      | error e => rw [hr] at h; exact absurd h (by simp)
      | ok r =>
        rw [hr] at h
        obtain ⟨app, h1, h2⟩ := ih (idx + 1) (rs ++ [r]) (b && r.success) h
        exact ⟨r :: app, by rw [h1]; simp, by rw [h2]; simp [Bool.and_assoc]⟩

/-- Scanning a dependency list whose first offender is a failed (earlier)
dependency aborts with the failure naming it. -/
theorem checkDeps_fail_at (idx : Nat) (rs : List AgentResult) (pre post : List Nat)
    (d : Nat) (rd : AgentResult)
    (hclean : ∀ e ∈ pre, e < idx ∧ ∃ re, rs[e]? = some re ∧ re.success = true)
    (hd : d < idx) (hrd : rs[d]? = some rd) (hfail : rd.success = false) :
    checkDeps idx rs (pre ++ d :: post)
      = DepCheck.abort (AgentResult.failure
          ("Dependency " ++ toString d ++ " failed, skipping subtask " ++ toString idx)) := by
  induction pre with
  | nil =>
    simp only [List.nil_append, checkDeps]
    rw [if_neg (by omega : ¬ idx ≤ d), hrd]
    simp [hfail]
  | cons e es ih =>
    obtain ⟨he, re, hre, hsucc⟩ := hclean e (List.mem_cons_self e es)
    simp only [List.cons_append, checkDeps]
    rw [if_neg (by omega : ¬ idx ≤ e), hre]
    simp only [hsucc, if_true]
    exact ih (fun e' he' => hclean e' (List.mem_cons_of_mem e he'))

/-- Scanning a dependency list whose first offender is a forward (or
self) reference aborts with the structural failure. -/
theorem checkDeps_forward_at (idx : Nat) (rs : List AgentResult) (pre post : List Nat)
    (d : Nat)
    (hclean : ∀ e ∈ pre, e < idx ∧ ∃ re, rs[e]? = some re ∧ re.success = true)
    (hd : idx ≤ d) :
    checkDeps idx rs (pre ++ d :: post)
      = DepCheck.abort (AgentResult.failure "Invalid dependency: forward reference") := by
  induction pre with
  | nil =>
    simp only [List.nil_append, checkDeps]
    rw [if_pos hd]
  | cons e es ih =>
    obtain ⟨he, re, hre, hsucc⟩ := hclean e (List.mem_cons_self e es)
    simp only [List.cons_append, checkDeps]
    rw [if_neg (by omega : ¬ idx ≤ e), hre]
    simp only [hsucc, if_true]
    exact ih (fun e' he' => hclean e' (List.mem_cons_of_mem e he'))

/-- With `results.len() = idx` (the loop invariant), the dependency scan
never reads out of bounds: the `d >= idx` abort fires first. -/
theorem checkDeps_ne_oob (idx : Nat) (rs : List AgentResult) (deps : List Nat)
    (hlen : rs.length = idx) :
    checkDeps idx rs deps ≠ DepCheck.oob := by
  induction deps with
  | nil => simp [checkDeps]
  | cons d ds ih =>
    simp only [checkDeps]
    by_cases hc : idx ≤ d
    · simp [hc]
    · have hd2 : d < rs.length := by omega
      obtain ⟨r, hr⟩ : ∃ r, rs[d]? = some r :=
        ⟨rs.get ⟨d, hd2⟩, List.getElem?_eq_getElem hd2⟩
      rw [if_neg hc, hr]
      by_cases hs : r.success <;> simp [hs, ih]

/-- The loop started with `results.len() = idx` never panics. -/
theorem execLoop_ne_crash (run : Nat → SubTask → Except String AgentResult)
    (xs : List SubTask) (idx : Nat) (rs : List AgentResult) (b : Bool)
    (hlen : rs.length = idx) :
    execLoop run xs idx rs b ≠ LoopResult.crash := by
  induction xs generalizing idx rs b with
  | nil => simp [execLoop]
  | cons st rest ih =>
    simp only [execLoop]
    cases hc : checkDeps idx rs st.dependencies with
    | oob => exact absurd hc (checkDeps_ne_oob idx rs st.dependencies hlen)
    | abort r => simp
    | pass =>
      cases run idx st with
      | error e => simp
      | ok r => exact ih (idx + 1) (rs ++ [r]) (b && r.success) (by simp [hlen])

/-- The summary depends only on the success flags. -/
theorem summaryLines_congr (idx : Nat) (l1 l2 : List AgentResult)
    (h : l1.map (fun r => r.success) = l2.map (fun r => r.success)) :
    summaryLines idx l1 = summaryLines idx l2 := by
  induction l1 generalizing idx l2 with
  | nil => cases l2 with
    | nil => rfl
    | cons b bs => exact absurd h (by simp)
  | cons a as ih =>
    cases l2 with
    | nil => exact absurd h (by simp)
    | cons b bs =>
      simp only [List.map_cons, List.cons.injEq] at h
      simp only [summaryLines, h.1]
      rw [ih (idx + 1) bs h.2]

/-! ## The claims -/

/-- C1.  If the prefix `xs` runs to completion with results `rs`, subtask
`d`'s result in `rs` is a failure, and the next subtask's first offending
dependency is `d`, then execution halts right there: the loop early-returns
the failure naming dependency `d` and subtask index `xs.length`, the
aggregate result of `execute` is that failure, the results accumulated are
exactly the `xs.length` results of the prefix — and all of this holds for
every oracle `run2` agreeing with `run` below `xs.length`, so the halted
subtask's handler (and every later handler) is never invoked. -/
theorem c1_dependency_failure_halts
    (run run2 : Nat → SubTask → Except String AgentResult)
    (xs ys : List SubTask) (st : SubTask) (pre post : List Nat) (d : Nat)
    (rs : List AgentResult) (b : Bool) (rd : AgentResult)
    (hpre : execLoop run xs 0 [] true = LoopResult.done rs b)
    (hdeps : st.dependencies = pre ++ d :: post)
    (hclean : ∀ e ∈ pre, e < xs.length ∧ ∃ re, rs[e]? = some re ∧ re.success = true)
    (hd : d < xs.length)
    (hrd : rs[d]? = some rd)
    (hfail : rd.success = false)
    (hagree : ∀ j st2, j < xs.length → run2 j st2 = run j st2) :
    execLoop run2 (xs ++ st :: ys) 0 [] true
      = LoopResult.earlyReturn (AgentResult.failure
          ("Dependency " ++ toString d ++ " failed, skipping subtask " ++ toString xs.length))
          rs ∧
    coordinatorExecute run2 (xs ++ st :: ys)
      = ExecOutcome.ok (AgentResult.failure
          ("Dependency " ++ toString d ++ " failed, skipping subtask " ++ toString xs.length)) ∧
    rs.length = xs.length ∧
    (AgentResult.failure
        ("Dependency " ++ toString d ++ " failed, skipping subtask " ++ toString xs.length)).success
      = false := by
  have hlen : rs.length = xs.length := by
    have h := execLoop_done_length run xs 0 [] true rs b hpre
    simpa using h
  have hpre2 : execLoop run2 xs 0 [] true = LoopResult.done rs b := by
    rw [execLoop_congr run run2 xs 0 [] true (fun j st2 hj => hagree j st2 (by omega))]
    exact hpre
  have happ := execLoop_append run2 xs (st :: ys) 0 [] true rs b hpre2
  rw [Nat.zero_add] at happ
  have hck : checkDeps xs.length rs st.dependencies
      = DepCheck.abort (AgentResult.failure
          ("Dependency " ++ toString d ++ " failed, skipping subtask " ++ toString xs.length)) := by
    rw [hdeps]
    exact checkDeps_fail_at xs.length rs pre post d rd hclean hd hrd hfail
  have hloop : execLoop run2 (xs ++ st :: ys) 0 [] true
      = LoopResult.earlyReturn (AgentResult.failure
          ("Dependency " ++ toString d ++ " failed, skipping subtask " ++ toString xs.length))
          rs := by
    rw [happ]
    simp only [execLoop]
    rw [hck]
  refine ⟨hloop, ?_, hlen, rfl⟩
  unfold coordinatorExecute
  rw [hloop]

/-- C1 witness: three subtasks `[A(no deps), B(deps=[0]), C(deps=[0,1])]`
where A succeeds and B fails — the overall result is the failure naming
dependency 1, with exactly the two results of A and B accumulated, under
an oracle whose behaviour at index 2 differs from `runW` (so C's handler
is never consulted). -/
theorem c1_witness_three_subtasks :
    coordinatorExecute runW2 ([stA, stB] ++ stC :: [])
      = ExecOutcome.ok (AgentResult.failure
          ("Dependency " ++ toString 1 ++ " failed, skipping subtask "
            ++ toString ([stA, stB] : List SubTask).length)) ∧
    ([resA, resB] : List AgentResult).length = ([stA, stB] : List SubTask).length := by
  have h := c1_dependency_failure_halts runW runW2 [stA, stB] [] stC [0] [] 1
    [resA, resB] false resB rfl rfl
    (by
      intro e he
      simp only [List.mem_singleton] at he
      subst he
      exact ⟨by simp, resA, rfl, rfl⟩)
    (by simp) rfl rfl
    (by
      intro j st2 hj
      simp only [List.length_cons, List.length_nil] at hj
      interval_cases j <;> rfl)
  exact ⟨h.2.1, h.2.2.1⟩

/-- C2.  If the prefix `xs` runs to completion and the next subtask's
first offending dependency index `d` satisfies `d >= xs.length` (a forward
or self reference), execution aborts right there with the structural
"forward reference" failure, no handler at or past that position is
invoked (the conclusion holds for every oracle agreeing below
`xs.length`), and the accumulated results list has length exactly
`xs.length`. -/
theorem c2_forward_reference_halts
    (run run2 : Nat → SubTask → Except String AgentResult)
    (xs ys : List SubTask) (st : SubTask) (pre post : List Nat) (d : Nat)
    (rs : List AgentResult) (b : Bool)
    (hpre : execLoop run xs 0 [] true = LoopResult.done rs b)
    (hdeps : st.dependencies = pre ++ d :: post)
    (hclean : ∀ e ∈ pre, e < xs.length ∧ ∃ re, rs[e]? = some re ∧ re.success = true)
    (hd : xs.length ≤ d)
    (hagree : ∀ j st2, j < xs.length → run2 j st2 = run j st2) :
    execLoop run2 (xs ++ st :: ys) 0 [] true
      = LoopResult.earlyReturn
          (AgentResult.failure "Invalid dependency: forward reference") rs ∧
    coordinatorExecute run2 (xs ++ st :: ys)
      = ExecOutcome.ok (AgentResult.failure "Invalid dependency: forward reference") ∧
    rs.length = xs.length ∧
    (AgentResult.failure "Invalid dependency: forward reference").success = false := by
  have hlen : rs.length = xs.length := by
    have h := execLoop_done_length run xs 0 [] true rs b hpre
    simpa using h
  have hpre2 : execLoop run2 xs 0 [] true = LoopResult.done rs b := by
    rw [execLoop_congr run run2 xs 0 [] true (fun j st2 hj => hagree j st2 (by omega))]
    exact hpre
  have happ := execLoop_append run2 xs (st :: ys) 0 [] true rs b hpre2
  rw [Nat.zero_add] at happ
  have hck : checkDeps xs.length rs st.dependencies
      = DepCheck.abort (AgentResult.failure "Invalid dependency: forward reference") := by
    rw [hdeps]
    exact checkDeps_forward_at xs.length rs pre post d hclean hd
  have hloop : execLoop run2 (xs ++ st :: ys) 0 [] true
      = LoopResult.earlyReturn
          (AgentResult.failure "Invalid dependency: forward reference") rs := by
    rw [happ]
    simp only [execLoop]
    rw [hck]
  refine ⟨hloop, ?_, hlen, rfl⟩
  unfold coordinatorExecute
  rw [hloop]

/-- C2 witness: subtask 1 declares dependency index 1 (a self reference);
after subtask 0 succeeds, execution aborts with the structural failure
and exactly one accumulated result, under an oracle differing from `runW`
at index 1 and later. -/
theorem c2_witness_self_reference :
    coordinatorExecute runWFwd ([stA] ++ stSelf :: [])
      = ExecOutcome.ok (AgentResult.failure "Invalid dependency: forward reference") ∧
    ([resA] : List AgentResult).length = ([stA] : List SubTask).length := by
  have h := c2_forward_reference_halts runW runWFwd [stA] [] stSelf [] [] 1
    [resA] true rfl rfl
    (fun e he => absurd he (List.not_mem_nil e))
    (by simp)
    (by
      intro j st2 hj
      simp only [List.length_cons, List.length_nil] at hj
      interval_cases j
      rfl)
  exact ⟨h.2.1, h.2.2.1⟩

/-- C8.  When the loop completes without aborting, the aggregate result's
`success` is the AND of every per-subtask success flag and its `output`
is the per-index SUCCESS/FAILED summary — which depends only on the
success flags, never on any subtask's output text. -/
theorem c8_aggregate_success_and_summary
    (run : Nat → SubTask → Except String AgentResult)
    (subtasks : List SubTask) (results : List AgentResult) (allS : Bool)
    (hdone : execLoop run subtasks 0 [] true = LoopResult.done results allS) :
    coordinatorExecute run subtasks
      = ExecOutcome.ok { success := results.all (fun r => r.success),
                         output := summaryOutput results, metadata := [] } ∧
    ∀ results2, results2.map (fun r => r.success) = results.map (fun r => r.success) →
      summaryOutput results2 = summaryOutput results := by
  obtain ⟨app, h1, h2⟩ := execLoop_done_parts run subtasks 0 [] true results allS hdone
  simp only [List.nil_append] at h1
  subst h1
  constructor
  · unfold coordinatorExecute
    rw [hdone, h2]
    simp
  · intro results2 hmap
    unfold summaryOutput
    rw [summaryLines_congr 0 results2 results hmap]

/-- C8 witness: the two-subtask run (A succeeds, B fails) aggregates to
`success = false` with the index summary, and the summary is unchanged
when the two output texts are replaced. -/
theorem c8_witness_two_subtasks :
    coordinatorExecute runW2 [stA, stB]
      = ExecOutcome.ok { success := List.all [resA, resB] (fun r => r.success),
                         output := summaryOutput [resA, resB], metadata := [] } ∧
    summaryOutput [resA2, resB2] = summaryOutput [resA, resB] := by
  have h := c8_aggregate_success_and_summary runW2 [stA, stB] [resA, resB] false rfl
  exact ⟨h.1, h.2 [resA2, resB2] rfl⟩

/-- C9.  The executor never reads `results` out of bounds: the `d >= idx`
abort fires before any indexed access, and exactly one result is appended
per completed subtask, so at the start of iteration `idx` the accumulator
holds exactly `idx` entries and every `results[d]` access has
`d < idx = results.len()` (the `crash` outcome modelling a Rust index
panic is unreachable). -/
theorem c9_results_access_in_bounds
    (run : Nat → SubTask → Except String AgentResult) (subtasks : List SubTask) :
    (coordinatorExecute run subtasks).isCrash = false := by
  unfold coordinatorExecute
  cases h : execLoop run subtasks 0 [] true with
  | crash => exact absurd h (execLoop_ne_crash run subtasks 0 [] true rfl)
  | err e => rfl
  | earlyReturn r rsf => rfl
  | done rs b => rfl

/-- There is no opening bracket in `"not json"`. -/
theorem strFind_not_json_lbracket : strFind "not json" '\x5b' = none := rfl

/-- C3 counterexample: on the completion response `"]x["` — which contains
no bracketed substring from the first opening bracket to the last closing
bracket, vacuously satisfying the claim's hypothesis — the Rust slice
`&response[2..=0]` panics (slice start 2 > end 0 + 1), so the Decomposer
crashes instead of returning the single fallback subtask the claim
promises. -/
theorem c3_counterexample_slice_crash :
    decompose_task (fun _ => none) (Except.ok "]x\x5b") "implement a parser"
      = DecomposeOut.crash ∧
    decompose_task (fun _ => none) (Except.ok "]x\x5b") "implement a parser"
      ≠ DecomposeOut.ok [{ description := "implement a parser", agent_type := "code",
                           dependencies := [] }] := by
  exact ⟨rfl, by decide⟩

/-- C3 (amended).  For every completion response in which the slice from
the first `[` to the last `]` is valid (first `[` starts no later than one
past the last `]` — otherwise the code panics) and that slice does not
parse as a non-empty subtask array, the Decomposer returns exactly one
subtask: the whole task text, no dependencies, handler chosen by
`infer_agent_type`'s keyword precedence (code, then shell, then file,
then mcp, then "analysis"); in particular the task "implement a parser"
infers "code", and the Decomposer never returns an empty plan. -/
theorem c3_fallback_after_parse_failure (fromStr : String → Option (List SubTask))
    (response task : String)
    (hnocrash : ∀ start stop, strFind response '\x5b' = some start →
      strRFind response ']' = some stop → start ≤ stop + 1)
    (hnoparse : ∀ start stop, strFind response '\x5b' = some start →
      strRFind response ']' = some stop →
      fromStr (strSlice response start (stop + 1)) = none ∨
      fromStr (strSlice response start (stop + 1)) = some []) :
    decompose_task fromStr (Except.ok response) task
      = DecomposeOut.ok [{ description := task, agent_type := infer_agent_type task,
                           dependencies := [] }] ∧
    infer_agent_type "implement a parser" = "code" ∧
    (∀ fromStr2 llmR task2 out,
      decompose_task fromStr2 llmR task2 = DecomposeOut.ok out → 1 ≤ out.length) := by
  have hps : parse_subtasks fromStr response task
      = ParseOut.ok [{ description := task, agent_type := infer_agent_type task,
                       dependencies := [] }] := by
    unfold parse_subtasks
    cases hf : strFind response '\x5b' with
    | none => cases hr : strRFind response ']' <;> rfl
    | some start =>
      cases hr : strRFind response ']' with
      | none => rfl
      | some stop =>
        have h1 := hnocrash start stop hf hr
        show (if start > stop + 1 then ParseOut.crash
            else
              match fromStr (strSlice response start (stop + 1)) with
              | some subtasks =>
                if subtasks.isEmpty then
                  ParseOut.ok [{ description := task, agent_type := infer_agent_type task,
                                 dependencies := [] }]
                else ParseOut.ok subtasks
              | none =>
                ParseOut.ok [{ description := task, agent_type := infer_agent_type task,
                               dependencies := [] }])
          = ParseOut.ok [{ description := task, agent_type := infer_agent_type task,
                           dependencies := [] }]
        rw [if_neg (by omega : ¬ start > stop + 1)]
        rcases hnoparse start stop hf hr with h2 | h2 <;> simp [h2]
  refine ⟨?_, rfl, ?_⟩
  · show ((match parse_subtasks fromStr response task with
        | ParseOut.crash => DecomposeOut.crash
        | ParseOut.ok subtasks =>
          if subtasks.isEmpty then
            DecomposeOut.ok [(⟨task, infer_agent_type task, []⟩ : SubTask)]
          else DecomposeOut.ok subtasks : DecomposeOut))
      = DecomposeOut.ok [(⟨task, infer_agent_type task, []⟩ : SubTask)]
    rw [hps]
    rfl
  · intro fromStr2 llmR task2 out hout
    cases llmR with
    | error e => exact absurd hout (by simp [decompose_task])
    | ok resp2 =>
      have hout2 : ((match parse_subtasks fromStr2 resp2 task2 with
          | ParseOut.crash => DecomposeOut.crash
          | ParseOut.ok subtasks =>
            if subtasks.isEmpty then
              DecomposeOut.ok [(⟨task2, infer_agent_type task2, []⟩ : SubTask)]
            else DecomposeOut.ok subtasks : DecomposeOut))
          = DecomposeOut.ok out := hout
      cases hp : parse_subtasks fromStr2 resp2 task2 with
      | crash => rw [hp] at hout2; exact absurd hout2 (by simp)
      | ok subtasks =>
        rw [hp] at hout2
        cases subtasks with
        | nil =>
          have hout3 : DecomposeOut.ok [(⟨task2, infer_agent_type task2, []⟩ : SubTask)]
              = DecomposeOut.ok out := hout2
          injection hout3 with h
          rw [← h]
          simp
        | cons s ss =>
          have hout3 : DecomposeOut.ok (s :: ss) = DecomposeOut.ok out := hout2
          injection hout3 with h
          rw [← h]
          simp

/-- C3 witness: with the malformed response `"not json"` (no bracket at
all, so both hypotheses hold vacuously), `decompose("implement a parser")`
yields exactly one subtask whose handler is `"code"`. -/
theorem c3_witness_not_json :
    decompose_task (fun _ => none) (Except.ok "not json") "implement a parser"
      = DecomposeOut.ok [{ description := "implement a parser",
                           agent_type := infer_agent_type "implement a parser",
                           dependencies := [] }] ∧
    infer_agent_type "implement a parser" = "code" := by
  have h := c3_fallback_after_parse_failure (fun _ => none) "not json" "implement a parser"
    (by
      intro start stop hf hr
      rw [strFind_not_json_lbracket] at hf
      exact Option.noConfusion hf)
    (by
      intro start stop hf hr
      rw [strFind_not_json_lbracket] at hf
      exact Option.noConfusion hf)
  exact ⟨h.1, h.2.1⟩

/-- The interactive loop skips an unrecognised line. -/
theorem promptChoice_skip (mode : PermissionMode) (l : String) (inputs : List String)
    (hl : recognizedChoice l = false) :
    promptChoice mode (l :: inputs) = promptChoice mode inputs := by
  simp only [recognizedChoice, Bool.or_eq_false_iff] at hl
  obtain ⟨⟨⟨⟨⟨⟨⟨h1, h2⟩, h3⟩, h4⟩, h5⟩, h6⟩, h7⟩, h8⟩ := hl
  simp only [promptChoice, h1, h2, h3, h4, h5, h6, h7, h8,
    Bool.or_self, Bool.or_false, Bool.false_or]
  simp

/-- The interactive loop on an `a`/`all` line escalates to `AllowAll` and
returns true. -/
theorem promptChoice_escalate (line : String) (rest : List String) (mode : PermissionMode)
    (h : strToLower (strTrim line) = "a" ∨ strToLower (strTrim line) = "all") :
    promptChoice mode (line :: rest) = (true, PermissionMode.AllowAll, rest) := by
  simp only [promptChoice]
  rcases h with h | h <;> rw [h] <;> simp

/-- C4.  If `request_shell_execution` under `Ask` returns true via the
escalate choice (the first recognised stdin line is `a`/`all`), the shared
mode becomes `AllowAll`, and thereafter both `request_file_write` and
`request_shell_execution` return true unconditionally without touching
the input stream (no further interactive prompt). -/
theorem c4_escalation_grants_all (cmd line : String) (pre rest : List String)
    (hpre : ∀ l ∈ pre, recognizedChoice l = false)
    (hline : strToLower (strTrim line) = "a" ∨ strToLower (strTrim line) = "all") :
    request_shell_execution cmd PermissionMode.Ask (pre ++ line :: rest)
      = (true, PermissionMode.AllowAll, rest) ∧
    (∀ path preview inputs2,
      request_file_write path preview PermissionMode.AllowAll inputs2
        = (true, PermissionMode.AllowAll, inputs2)) ∧
    (∀ cmd2 inputs2,
      request_shell_execution cmd2 PermissionMode.AllowAll inputs2
        = (true, PermissionMode.AllowAll, inputs2)) := by
  refine ⟨?_, fun _ _ _ => rfl, fun _ _ => rfl⟩
  show promptChoice PermissionMode.Ask (pre ++ line :: rest) = _
  induction pre with
  | nil =>
    rw [List.nil_append]
    exact promptChoice_escalate line rest PermissionMode.Ask hline
  | cons l ls ih =>
    rw [List.cons_append,
      promptChoice_skip PermissionMode.Ask l (ls ++ line :: rest)
        (hpre l (List.mem_cons_self l ls))]
    exact ih (fun l' hl' => hpre l' (List.mem_cons_of_mem l hl'))

/-- C4 witness: under `Ask`, typing `a` at the shell-execution prompt
returns true with the mode escalated, and a subsequent file write under
`AllowAll` returns true consuming no input. -/
theorem c4_witness_escalate_then_write :
    request_shell_execution "rm -rf ./build" PermissionMode.Ask ["a"]
      = (true, PermissionMode.AllowAll, []) ∧
    request_file_write "/tmp/out.txt" "content" PermissionMode.AllowAll []
      = (true, PermissionMode.AllowAll, []) := by
  have h := c4_escalation_grants_all "rm -rf ./build" "a" [] []
    (fun l hl => absurd hl (List.not_mem_nil l))
    (Or.inl rfl)
  exact ⟨h.1, h.2.1 "/tmp/out.txt" "content" []⟩

/-- C5.  The protocol round trip: encoding `CallTool{name:"x",
arguments:{"a":1}}` and decoding the response line
`{"success":true,"result":{"ok":true}}` makes `call_tool` return the value
`{"ok":true}`; decoding `{"success":false,"error":"boom"}` makes it fail
with a provider error containing "boom"; and a decoded `success=true`
response without a `result` field is an error, not a value. -/
theorem c5_protocol_round_trip :
    call_tool exCallOk srvX "x" [("a", Json.num 1)]
      = Except.ok (Json.obj [("ok", Json.bool true)]) ∧
    (call_tool exCallBoom srvX "x" [("a", Json.num 1)]
        = Except.error ("Tool call failed: " ++ optionDebug (some "boom")) ∧
      strContains ("Tool call failed: " ++ optionDebug (some "boom")) "boom" = true) ∧
    call_tool exCallNoResult srvX "x" [("a", Json.num 1)]
      = Except.error "No result from tool call" := by
  exact ⟨rfl, ⟨rfl, rfl⟩, rfl⟩

/-- C6 counterexample: register `agA` then `agB` (both capable of every
task).  The hash map's value enumeration is unspecified; the enumeration
`[agB, agA]` is a permutation of the registered values, and on it
`find_capable` returns the two handlers in the order `beta, alpha` — not
registration order `alpha, beta`.  So the ordering part of the claim
fails on the code. -/
theorem c6_counterexample_hash_order :
    regAB = [("alpha", agA), ("beta", agB)] ∧
    List.Perm [agB, agA] (regAB.map Prod.snd) ∧
    find_capable [agB, agA] "t" = [agB, agA] ∧
    (find_capable [agB, agA] "t").map AgentSpec.name ≠ [agA.name, agB.name] := by
  refine ⟨rfl, List.Perm.swap agA agB [], rfl, ?_⟩
  intro h
  have h2 : (["beta", "alpha"] : List String) = ["alpha", "beta"] := h
  exact absurd h2 (by decide)

/-- C6 (amended).  For every registry and every enumeration `vals` the
hash map may produce (any permutation of the stored values),
`find_capable` returns exactly the handlers whose `can_handle` is true —
in the enumeration's order, which is the map's unspecified iteration
order, not necessarily registration order. -/
theorem c6_find_capable_exactly_capable (m : List (String × AgentSpec))
    (vals : List AgentSpec) (task : String)
    (hperm : List.Perm vals (m.map Prod.snd)) :
    find_capable vals task = vals.filter (fun a => a.can_handle task) ∧
    ∀ a : AgentSpec, a ∈ find_capable vals task ↔
      a ∈ m.map Prod.snd ∧ a.can_handle task = true := by
  refine ⟨rfl, fun a => ?_⟩
  unfold find_capable
  rw [List.mem_filter, hperm.mem_iff]

/-- C6 witness: on the enumeration `[agB, agA]` of the two-agent registry,
`find_capable` is the `can_handle` filter, and `agA` is in the output
exactly because it is a stored value that can handle the task. -/
theorem c6_witness_two_agents :
    find_capable [agB, agA] "t" = List.filter (fun a => a.can_handle "t") [agB, agA] ∧
    (agA ∈ find_capable [agB, agA] "t" ↔
      agA ∈ regAB.map Prod.snd ∧ agA.can_handle "t" = true) := by
  have h := c6_find_capable_exactly_capable regAB [agB, agA] "t"
    (List.Perm.swap agA agB [])
  exact ⟨h.1, h.2 agA⟩

/-- C7 counterexample: with provider "a" (child pid 1) registered and
running, re-registering "a" with a new child (pid 2) replaces the map
entry — and the displaced `McpServer` value is dropped, whose `Drop`
impl issues a best-effort kill, so pid 1 is no longer among the running
children.  The claim's "the previously registered process remains
running" fails on the code. -/
theorem c7_counterexample_drop_kills :
    register_server 2 exListFail "a" [("a", srvOld)] [1]
      = Except.ok ([("a", { name := "a", process := some 2, tools := [] })], [2]) ∧
    (1 : Nat) ∉ ([2] : List Nat) := by
  exact ⟨rfl, by decide⟩

/-- C7 (amended).  Re-registering a name starts the new process and
replaces the prior map entry; the displaced entry is dropped by
`HashMap::insert`, and `Drop for McpServer` issues a best-effort kill of
its child, so the prior process is terminated rather than left running. -/
theorem c7_register_replaces_and_kills_prior (pid oldPid : Nat)
    (exchange : String → Except String String) (name : String)
    (servers : List (String × McpServerSt)) (running : List Nat)
    (old srv : McpServerSt)
    (hold : servers.find? (fun p => p.1 == name) = some (name, old))
    (hpid : old.process = some oldPid)
    (hstart : serverStart (Except.ok pid) exchange (newServer name) = Except.ok srv) :
    register_server pid exchange name servers running
      = Except.ok (servers.map (fun p => if p.1 == name then (name, srv) else p),
                   (pid :: running).erase oldPid) ∧
    ((pid :: running).Nodup → oldPid ∉ (pid :: running).erase oldPid) := by
  constructor
  · unfold register_server
    rw [hstart]
    show Except.ok (mapInsertServer servers name srv (pid :: running)) = _
    unfold mapInsertServer
    rw [hold]
    show Except.ok (_, dropServer old (pid :: running)) = _
    unfold dropServer
    rw [hpid]
  · intro hnd hmem
    exact ((List.Nodup.mem_erase_iff hnd).mp hmem).1 rfl

/-- C7 witness: the concrete replacement of provider "a" (old pid 1, new
pid 2), applying the amended theorem at its inputs. -/
theorem c7_witness_replacement :
    register_server 2 exListFail "a" [("a", srvOld)] [1]
      = Except.ok (([("a", srvOld)]).map
          (fun p => if p.1 == "a" then ("a", srvNew2) else p),
          ([2, 1] : List Nat).erase 1) ∧
    (1 : Nat) ∉ ([2, 1] : List Nat).erase 1 := by
  have h := c7_register_replaces_and_kills_prior 2 1 exListFail "a"
    [("a", srvOld)] [1] srvOld srvNew2 rfl rfl rfl
  exact ⟨h.1, h.2 (by decide)⟩

/-- C10.  When the child spawns and the discovery exchange yields a
parseable JSON response line decoding to a response that either reports
`success=false`, carries no result, or carries a result that does not
decode as a tool list, `start()` still succeeds and leaves the process
registered with an empty tool cache; and `start()` can only fail from a
spawn failure, a pipe failure, or a response line that does not decode
as a `McpResponse`. -/
theorem c10_start_absorbs_discovery_failure
    (spawnE : Except String Nat) (pid : Nat)
    (exchange : String → Except String String) (nm respLine : String)
    (j : Json) (resp : McpResponse)
    (hspawn : spawnE = Except.ok pid)
    (hex : exchange (McpRequest.toLine McpRequest.listTools) = Except.ok respLine)
    (hjson : Json.parse respLine = some j)
    (hresp : McpResponse.fromJson j = some resp)
    (habsorb : resp.success = false ∨ resp.result = none ∨
      ∃ r, resp.result = some r ∧ toolsFromJson r = none) :
    serverStart spawnE exchange (newServer nm)
      = Except.ok { name := nm, process := some pid, tools := [] } ∧
    (∀ spawn2 ex2 nm2 e, serverStart spawn2 ex2 (newServer nm2) = Except.error e →
      spawn2 = Except.error e ∨
      (∃ p2, spawn2 = Except.ok p2 ∧
        (ex2 (McpRequest.toLine McpRequest.listTools) = Except.error e ∨
         ∃ rl, ex2 (McpRequest.toLine McpRequest.listTools) = Except.ok rl ∧
           (Json.parse rl = none ∨
            ∃ jj, Json.parse rl = some jj ∧ McpResponse.fromJson jj = none)))) := by
  constructor
  · subst hspawn
    rcases habsorb with h | h | ⟨r, hr, ht⟩
    · simp [serverStart, discover_tools, send_request, newServer, hex, hjson, hresp, h]
    · cases hs : resp.success <;>
        simp [serverStart, discover_tools, send_request, newServer, hex, hjson, hresp, h, hs]
    · cases hs : resp.success <;>
        simp [serverStart, discover_tools, send_request, newServer, hex, hjson, hresp,
          hr, ht, hs]
  · intro spawn2 ex2 nm2 e herr
    cases spawn2 with
    | error e2 =>
      left
      have h2 : Except.error (ε := String) (α := McpServerSt) e2 = Except.error e := herr
      injection h2 with h3
      rw [h3]
    | ok p2 =>
      right
      refine ⟨p2, rfl, ?_⟩
      cases hx : ex2 (McpRequest.toLine McpRequest.listTools) with
      | error e2 =>
        left
        have hcomp : serverStart (Except.ok p2) ex2 (newServer nm2) = Except.error e2 := by
          simp [serverStart, discover_tools, send_request, newServer, hx]
        rw [hcomp] at herr
        injection herr with h3
        rw [h3]
      | ok rl =>
        right
        refine ⟨rl, rfl, ?_⟩
        cases hpj : Json.parse rl with
        | none => exact Or.inl rfl
        | some jj =>
          cases hq : McpResponse.fromJson jj with
          | none => exact Or.inr ⟨jj, rfl, hq⟩
          | some resp2 =>
            exfalso
            by_cases hs : resp2.success
            · cases hres : resp2.result with
              | none =>
                simp [serverStart, discover_tools, send_request, newServer,
                  hx, hpj, hq, hs, hres] at herr
              | some rr =>
                cases htl : toolsFromJson rr with
                | none =>
                  simp [serverStart, discover_tools, send_request, newServer,
                    hx, hpj, hq, hs, hres, htl] at herr
                | some tl =>
                  simp [serverStart, discover_tools, send_request, newServer,
                    hx, hpj, hq, hs, hres, htl] at herr
            · simp [serverStart, discover_tools, send_request, newServer,
                hx, hpj, hq, hs] at herr

/-- C10 witness: a provider whose discovery answer is the JSON line
`{"success":false,"error":"no tools today"}` — `start()` succeeds with an
empty tool cache. -/
theorem c10_witness_discovery_reports_failure :
    serverStart (Except.ok 7) exListFail (newServer "srv")
      = Except.ok { name := "srv", process := some 7, tools := [] } := by
  exact (c10_start_absorbs_discovery_failure (Except.ok 7) 7 exListFail "srv"
    "\x7b\"success\":false,\"error\":\"no tools today\"\x7d"
    (Json.obj [("success", Json.bool false), ("error", Json.str "no tools today")])
    { success := false, result := none, error := some "no tools today" }
    rfl rfl rfl rfl (Or.inl rfl)).1
